import Mathlib

/-!
# A verification model of the os2 kernel core

Shallow embedding of the capability registry (`src/kernel/src/cap.rs`), the
virtual-memory / demand-paging subsystem (`src/kernel/src/memory/paging.rs`),
the cooperative scheduler (`src/kernel/sched/mod.rs`) and the time source
(`src/kernel/time.rs`, `src/kernel/interrupts/pit.rs`).
-/

namespace OS2

/-! ## Association-list maps

`BTreeMap<u128, V>` / `BTreeMap<u64, V>` are modelled as association lists
with unique keys; `insertKey` has the `BTreeMap::insert` replace semantics. -/

/-- A finite map from numeric keys to `β`, modelling Rust's `BTreeMap`. -/
abbrev AList (β : Type) := List (Nat × β)

/-- `BTreeMap::contains_key`. -/
def containsKey {β : Type} : AList β → Nat → Bool
  | [], _ => false
  | (k', _) :: m, k => k' == k || containsKey m k

/-- `BTreeMap::get`. -/
def lookupKey {β : Type} : AList β → Nat → Option β
  | [], _ => none
  | (k', v) :: m, k => if k' == k then some v else lookupKey m k

/-- Remove every binding of a key (helper for `insertKey`). -/
def removeKey {β : Type} : AList β → Nat → AList β
  | [], _ => []
  | (k', v) :: m, k => if k' == k then removeKey m k else (k', v) :: removeKey m k

/-- `BTreeMap::insert`: bind `k` to `v`, replacing any previous binding. -/
def insertKey {β : Type} (m : AList β) (k : Nat) (v : β) : AList β :=
  (k, v) :: removeKey m k

/-- `BTreeMap::range(0..=addr).next_back()`: the entry with the greatest key
`≤ addr`, if any (keys are unique in a `BTreeMap`). -/
def rangePredAux {β : Type} : AList β → Nat → Option (Nat × β) → Option (Nat × β)
  | [], _, best => best
  | (k, v) :: m, addr, best =>
    if k ≤ addr then
      match best with
      | none => rangePredAux m addr (some (k, v))
      | some (kb, vb) =>
        if kb ≤ k then rangePredAux m addr (some (k, v))
        else rangePredAux m addr (some (kb, vb))
    else rangePredAux m addr best

/-- Predecessor query on the map: greatest key `≤ addr`. -/
def rangePred {β : Type} (m : AList β) (addr : Nat) : Option (Nat × β) :=
  rangePredAux m addr none

/-! ## Capability registry (`src/kernel/src/cap.rs`) -/

/-- A 128-bit capability key (`u128`), as a natural number. -/
abbrev Key := Nat

/-- `VirtualMemoryRegion { addr: u64, len: u64 }` from
`src/kernel/src/memory/paging.rs` (both fields in bytes). -/
structure VirtualMemoryRegion where
  addr : Nat
  len : Nat
deriving DecidableEq, Repr

/-- The `Capability` enum from `src/kernel/src/cap.rs`: either a group of
capabilities or a virtual-memory-region capability. -/
inductive Capability where
  | CapabilityGroup (caps : List Capability)
  | VirtualMemoryRegion (region : OS2.VirtualMemoryRegion)

/-- The capability registry contents: `BTreeMap<u128, Box<Capability>>`. -/
abbrev Registry := AList Capability

/-- Modelled from the spec: `rand::rngs::StdRng::from_seed(seed).gen()` comes
from the external `rand` crate (not part of this repository's sources).  Per
the `SeedableRng` contract it is a pure deterministic function of the seed;
the concrete 128-bit value is immaterial to every claim, only its determinism
matters, so we model the first drawn value as an arbitrary fixed function of
the seed bytes, reduced mod `2^128`. -/
def stdRngFromSeedGen (seed : List Nat) : Key :=
  (seed.foldl (fun acc b => acc * 256 + b % 256) 0) % 2 ^ 128

/-- The seed used by `register`: the all-zero 32-byte array `[0; 32]`. -/
def registerSeed : List Nat := List.replicate 32 0

/-- The candidate key drawn by `register`:
`rand::rngs::StdRng::from_seed([0; 32]).gen()`. -/
def registerCandidate : Key := stdRngFromSeedGen registerSeed

/-- The collision loop of `UnregisteredResourceHandle::register`:
`while locked.contains_key(&rand) { rand = rand; }` — note that the loop body
re-assigns `rand` to itself, so the candidate never changes.  `fuel` bounds the
number of loop iterations; `none` models non-termination (no fuel suffices). -/
def registerLoop (reg : Registry) : Nat → Key → Option Key
  | 0, rand => if containsKey reg rand then none else some rand
  | fuel + 1, rand =>
    if containsKey reg rand then registerLoop reg fuel rand else some rand

/-- `UnregisteredResourceHandle::register`: draw the candidate key, run the
collision loop, insert the boxed capability at the accepted key and return a
handle carrying that key.  Returns the updated registry together with the key;
`none` models the loop never terminating. -/
def register (fuel : Nat) (resource : Capability) (reg : Registry) :
    Option (Registry × Key) :=
  match registerLoop reg fuel registerCandidate with
  | some k => some (insertKey reg k resource, k)
  | none => none

/-- `ResourceHandle::with(f)`: look the key up in the registry (`unwrap`
panics when absent, modelled as `none`) and return `f` applied to the found
capability. -/
def withCap {α : Type} (reg : Registry) (k : Key) (f : Capability → α) : Option α :=
  (lookupKey reg k).map f

/-- A sequence of later `register` calls, folded over the registry.  A call
that diverges never returns, so it contributes no state change. -/
def registerMany (fuel : Nat) : List Capability → Registry → Registry
  | [], reg => reg
  | c :: caps, reg =>
    match register fuel c reg with
    | some (r', _) => registerMany fuel caps r'
    | none => registerMany fuel caps reg

/-! ## Virtual memory and demand paging (`src/kernel/src/memory/paging.rs`) -/

/-- `x86_64::structures::paging::PageTableFlags`, as a bitmask word. -/
abbrev PageTableFlags := Nat

/-- `Size4KiB::SIZE`. -/
def pageSize : Nat := 4096

/-- The `ALLOWED` map: `(start, (len, flags))` per granted range. -/
abbrev AllowedMap := AList (Nat × PageTableFlags)

/-- The installed leaf mappings: page start address to `(frame, flags)`. -/
abbrev PageTables := AList (Nat × PageTableFlags)

/-- The paging-relevant kernel state: the physical frame allocator's free
frames, the page tables and the `ALLOWED` range map. -/
structure PagingState where
  physFree : List Nat
  pageTables : PageTables
  allowed : AllowedMap
deriving DecidableEq, Repr

/-- Modelled from the spec: the physical frame allocator is the external
`buddy` crate behind `phys::BuddyAllocator::allocate_frame`; we model it as a
list of free frame numbers from which `allocate_frame` takes the first
(`None` when exhausted). -/
def allocateFrame : List Nat → Option (Nat × List Nat)
  | [] => none
  | f :: rest => some (f, rest)

/-- Modelled from the spec: `Mapper::map_to` from the external `x86_64` crate
installs a present 4KiB leaf mapping and fails if the page is already mapped
(the intermediate-table bookkeeping is not modelled). -/
def mapTo (pt : PageTables) (page frame : Nat) (flags : PageTableFlags) :
    Option PageTables :=
  if containsKey pt page then none else some (insertKey pt page (frame, flags))

/-- `VirtualMemoryRegion::alloc(npages)`: draw `npages` contiguous pages from
the virtual address allocator (the external `buddy` crate; `base` is the page
number it returns on success) and wrap them as a region measured in bytes. -/
def VirtualMemoryRegion.alloc (base npages : Nat) : VirtualMemoryRegion :=
  { addr := base * pageSize, len := npages * pageSize }

/-- `VirtualMemoryRegion::guard`: shrink the region by one page at the
beginning and one page at the end. -/
def VirtualMemoryRegion.guard (r : VirtualMemoryRegion) : VirtualMemoryRegion :=
  { addr := r.addr + pageSize, len := r.len - 2 * pageSize }

/-- `VirtualMemoryRegion::alloc_with_guard(npages)`: like `alloc`, but adds 2
to `npages` and calls `guard`. -/
def VirtualMemoryRegion.alloc_with_guard (base npages : Nat) : VirtualMemoryRegion :=
  (VirtualMemoryRegion.alloc base (npages + 2)).guard

/-- `map_region(region, flags)`: read `(start, len)` out of the handle's
capability via `with` (panic — `none` — if the key is absent, `unreachable` —
also `none` — if it is not a `VirtualMemoryRegion`), then insert
`(start, (len, flags))` into `ALLOWED`.  Nothing else is touched. -/
def map_region (st : PagingState) (reg : Registry) (hdl : Key)
    (flags : PageTableFlags) : Option PagingState :=
  match lookupKey reg hdl with
  | some (Capability.VirtualMemoryRegion r) =>
    some { st with allowed := insertKey st.allowed r.addr (r.len, flags) }
  | some (Capability.CapabilityGroup _) => none
  | none => none

/-- Outcome of `handle_page_fault`: a mapping installed (with the new state,
the mapped page, the committed frame and the flags used), the `Segfault`
panic, or a kernel panic from an `expect` on the fault path. -/
inductive FaultResult where
  | mapped (st : PagingState) (page frame : Nat) (flags : PageTableFlags)
  | segfault
  | kernelPanic
deriving DecidableEq, Repr

/-- `handle_page_fault`: read the fault address `cr2`, find the `ALLOWED`
entry with the greatest start `≤ cr2` (`range(0..=cr2).next_back()`).  If one
exists, build the page from the entry's *start* address
(`Page::from_start_address(VirtAddr::new(*start))`, panicking when unaligned),
allocate one frame (panicking when exhausted) and `map_to` it with the entry's
flags (panicking when the page is already mapped).  Otherwise panic with
`Segfault`.  Note the entry's `len` is only printed, never compared against
`cr2`, and the mapped page is the range's start page, not `cr2`'s page. -/
def handle_page_fault (st : PagingState) (cr2 : Nat) : FaultResult :=
  match rangePred st.allowed cr2 with
  | some (start, (_, flags)) =>
    if start % pageSize != 0 then FaultResult.kernelPanic
    else
      match allocateFrame st.physFree with
      | none => FaultResult.kernelPanic
      | some (frame, physFree') =>
        match mapTo st.pageTables start frame flags with
        | none => FaultResult.kernelPanic
        | some pt' =>
          FaultResult.mapped
            { physFree := physFree', pageTables := pt', allowed := st.allowed }
            start frame flags
  | none => FaultResult.segfault

/-- The start address of the page containing a byte address. -/
def pageContaining (addr : Nat) : Nat := addr - addr % pageSize

/-! ## Time source (`src/kernel/time.rs`, `src/kernel/interrupts/pit.rs`) -/

/-- `pit::HZ`, re-exported as `interrupts::PIT_HZ`. -/
def PIT_HZ : Nat := 1000

/-- The modulus of Rust's `usize` on this 64-bit target. -/
def usizeMod : Nat := 2 ^ 64

/-- `SysTime(usize)`: an opaque, totally ordered timestamp (a tick count). -/
structure SysTime where
  ticks : Nat
deriving DecidableEq, Repr

/-- `SysTime::after(secs)`: `SysTime(self.0 + secs * PIT_HZ)`, with `usize`
wrap-around made explicit. -/
def SysTime.after (s : SysTime) (secs : Nat) : SysTime :=
  { ticks := (s.ticks + secs * PIT_HZ) % usizeMod }

/-! ## Scheduler (`src/kernel/sched/mod.rs`) -/

/-- `EventKind`: what a queued continuation is waiting for. -/
inductive EventKind where
  | Now
  | Until (t : Nat)
  | Keyboard
deriving DecidableEq, Repr

/-- `Event`: what actually happened. -/
inductive Event where
  | Now
  | Timer
  | Keyboard (c : Nat)
deriving DecidableEq, Repr

/-- Continuations are one-shot and never cloned; an opaque id suffices. -/
abbrev Cont := Nat

/-- The loop body of `Scheduler::next`: `for _ in 0..self.next.len()` pop the
front entry (`?` yields `None` on an empty deque); a `Now` entry is returned
at once; an `Until(t)` entry is returned when `now ≥ t` and pushed to the back
otherwise; a `Keyboard` entry is returned (consuming the buffered byte) when
the keyboard buffer is non-empty and pushed to the back otherwise.  `now` is
the value read from `SysTime::now()`, `kbd` the FIFO keyboard buffer; the
result carries the remaining queue and buffer. -/
def schedNextAux (now : Nat) :
    Nat → List (EventKind × Cont) → List Nat →
      Option (Event × Cont) × List (EventKind × Cont) × List Nat
  | _, [], kbd => (none, [], kbd)
  | 0, q, kbd => (none, q, kbd)
  | _ + 1, (EventKind.Now, c) :: rest, kbd => (some (Event.Now, c), rest, kbd)
  | fuel + 1, (EventKind.Until t, c) :: rest, kbd =>
    if t ≤ now then (some (Event.Timer, c), rest, kbd)
    else schedNextAux now fuel (rest ++ [(EventKind.Until t, c)]) kbd
  | _ + 1, (EventKind.Keyboard, c) :: rest, b :: kbd => (some (Event.Keyboard b, c), rest, kbd)
  | fuel + 1, (EventKind.Keyboard, c) :: rest, [] =>
    schedNextAux now fuel (rest ++ [(EventKind.Keyboard, c)]) []

/-- `Scheduler::next`: a bounded scan of the pending set (the bound is the
set's length). -/
def Scheduler.next (now : Nat) (q : List (EventKind × Cont)) (kbd : List Nat) :
    Option (Event × Cont) × List (EventKind × Cont) × List Nat :=
  schedNextAux now q.length q kbd

/-- The continuation returned by a `Scheduler::next` result, if any. -/
def returnedCont (res : Option (Event × Cont) × List (EventKind × Cont) × List Nat) :
    Option Cont :=
  res.1.map Prod.snd

/-! ## Concrete states used by the counterexample and witness theorems -/

/-- A sample capability: a one-page region at address `0x1000`. -/
def demoCap : Capability := Capability.VirtualMemoryRegion ⟨4096, 4096⟩

/-- The registry after the first successful `register` of every boot. -/
def regAfterFirst : Registry := insertKey [] registerCandidate demoCap

/-- Sample page-table flags word (`PRESENT | WRITABLE | USER_ACCESSIBLE`). -/
def demoFlags : PageTableFlags := 7

/-- Paging state whose `ALLOWED` map holds one two-page range
`[0x1000, 0x3000)` and whose frame allocator holds two free frames. -/
def stTwoPage : PagingState :=
  { physFree := [7, 8], pageTables := [], allowed := [(4096, (8192, demoFlags))] }

/-- `stTwoPage` after one page fault anywhere in the range: one frame is gone
and the page at the range's start address `0x1000` is mapped. -/
def stTwoPageFaulted : PagingState :=
  { physFree := [8], pageTables := [(4096, (7, demoFlags))],
    allowed := [(4096, (8192, demoFlags))] }

/-- Paging state whose `ALLOWED` map holds one one-page range
`[0x1000, 0x2000)` and whose frame allocator holds one free frame. -/
def stOnePage : PagingState :=
  { physFree := [9], pageTables := [], allowed := [(4096, (4096, demoFlags))] }

/-- `stOnePage` after the handler services a fault: the frame is consumed and
the page at `0x1000` is mapped. -/
def stOnePageFaulted : PagingState :=
  { physFree := [], pageTables := [(4096, (9, demoFlags))],
    allowed := [(4096, (4096, demoFlags))] }

/-- A registry holding a two-page region capability under key `3`. -/
def demoRegMap : Registry := [(3, Capability.VirtualMemoryRegion ⟨4096, 8192⟩)]

/-- A paging state with non-trivial allocator, page-table and `ALLOWED`
contents, used to observe what `map_region` leaves unchanged. -/
def stMapRegion : PagingState :=
  { physFree := [5], pageTables := [(0, (1, 3))], allowed := [(0, (4096, 3))] }

/-! ## Registry lemmas -/

/-- If the collision loop returns a key, it is the unchanged candidate and it
was absent from the registry. -/
theorem registerLoop_eq_some {reg : Registry} :
    ∀ {fuel : Nat} {rand k : Key}, registerLoop reg fuel rand = some k →
      k = rand ∧ containsKey reg rand = false := by
  intro fuel
  induction fuel with
  | zero =>
    intro rand k h
    by_cases hc : containsKey reg rand = true
    · simp [registerLoop, hc] at h
    · simp [registerLoop, hc] at h
      exact ⟨h.symm, by simpa using hc⟩
  | succ fuel ih =>
    intro rand k h
    by_cases hc : containsKey reg rand = true
    · simp only [registerLoop, hc, if_true] at h
      exact absurd (ih h).2 (by simp [hc])
    · simp [registerLoop, hc] at h
      exact ⟨h.symm, by simpa using hc⟩

/-- If the candidate key is already present, no amount of fuel makes the
collision loop terminate: `rand = rand` never changes the candidate. -/
theorem registerLoop_none_of_contains {reg : Registry} {rand : Key}
    (hc : containsKey reg rand = true) :
    ∀ fuel : Nat, registerLoop reg fuel rand = none := by
  intro fuel
  induction fuel with
  | zero => simp [registerLoop, hc]
  | succ fuel ih => simp [registerLoop, hc, ih]

/-- Anatomy of a successful `register` call: the returned key is the fixed
candidate, it was absent before, and the new registry is the old one plus the
new binding. -/
theorem register_eq_some {fuel : Nat} {c : Capability} {r r' : Registry} {k : Key}
    (h : register fuel c r = some (r', k)) :
    k = registerCandidate ∧ containsKey r k = false ∧ r' = insertKey r k c := by
  unfold register at h
  cases hl : registerLoop r fuel registerCandidate with
  | none => rw [hl] at h; cases h
  | some k0 =>
    rw [hl] at h
    obtain ⟨hk0, hc⟩ := registerLoop_eq_some hl
    cases h
    exact ⟨hk0, by rw [hk0]; exact hc, rfl⟩

/-- Removing a different key does not affect `containsKey`. -/
theorem containsKey_removeKey_ne {β : Type} {k k' : Nat} (hne : k' ≠ k) :
    ∀ m : AList β, containsKey (removeKey m k') k = containsKey m k := by
  intro m
  induction m with
  | nil => rfl
  | cons a m ih =>
    obtain ⟨ak, av⟩ := a
    by_cases hak : ak = k'
    · subst hak
      simp [removeKey, containsKey, ih, hne]
    · simp [removeKey, containsKey, hak, ih]

/-- Removing a different key does not affect `lookupKey`. -/
theorem lookupKey_removeKey_ne {β : Type} {k k' : Nat} (hne : k' ≠ k) :
    ∀ m : AList β, lookupKey (removeKey m k') k = lookupKey m k := by
  intro m
  induction m with
  | nil => rfl
  | cons a m ih =>
    obtain ⟨ak, av⟩ := a
    by_cases hak : ak = k'
    · subst hak
      simp [removeKey, lookupKey, ih, hne]
    · simp [removeKey, lookupKey, hak, ih]

/-- The freshly inserted key is present. -/
theorem containsKey_insertKey_self {β : Type} (m : AList β) (k : Nat) (v : β) :
    containsKey (insertKey m k v) k = true := by
  simp [insertKey, containsKey]

/-- Inserting preserves the presence of any key. -/
theorem containsKey_insertKey_of {β : Type} {m : AList β} {k k' : Nat} {v : β}
    (h : containsKey m k = true) : containsKey (insertKey m k' v) k = true := by
  by_cases hk : k' = k
  · simp [insertKey, containsKey, hk]
  · simp [insertKey, containsKey, hk, containsKey_removeKey_ne hk, h]

/-- Looking up the freshly inserted key yields the inserted value. -/
theorem lookupKey_insertKey_self {β : Type} (m : AList β) (k : Nat) (v : β) :
    lookupKey (insertKey m k v) k = some v := by
  simp [insertKey, lookupKey]

/-- Inserting under a different key does not affect `lookupKey`. -/
theorem lookupKey_insertKey_ne {β : Type} {m : AList β} {k k' : Nat} {v : β}
    (hne : k' ≠ k) : lookupKey (insertKey m k' v) k = lookupKey m k := by
  simp [insertKey, lookupKey, hne, lookupKey_removeKey_ne hne]

/-- Keys present in the registry stay present under any sequence of later
`register` calls. -/
theorem registerMany_contains {fuel : Nat} {k : Key} :
    ∀ (caps : List Capability) (r : Registry), containsKey r k = true →
      containsKey (registerMany fuel caps r) k = true := by
  intro caps
  induction caps with
  | nil => intro r h; exact h
  | cons c caps ih =>
    intro r h
    cases hr : register fuel c r with
    | none => simp only [registerMany, hr]; exact ih r h
    | some p =>
      obtain ⟨r', k2⟩ := p
      obtain ⟨_, _, hr'⟩ := register_eq_some hr
      subst hr'
      simp only [registerMany, hr]
      exact ih _ (containsKey_insertKey_of h)

/-- The binding of a present key is unchanged by any sequence of later
`register` calls: a successful call always inserts an absent key. -/
theorem registerMany_lookup {fuel : Nat} {k : Key} :
    ∀ (caps : List Capability) (r : Registry), containsKey r k = true →
      lookupKey (registerMany fuel caps r) k = lookupKey r k := by
  intro caps
  induction caps with
  | nil => intro r _; rfl
  | cons c caps ih =>
    intro r h
    cases hr : register fuel c r with
    | none => simp only [registerMany, hr]; exact ih r h
    | some p =>
      obtain ⟨r', k2⟩ := p
      obtain ⟨_, hfresh, hr'⟩ := register_eq_some hr
      subst hr'
      have hne : k2 ≠ k := by
        intro he
        rw [he] at hfresh
        rw [h] at hfresh
        cases hfresh
      simp only [registerMany, hr]
      rw [ih _ (containsKey_insertKey_of h), lookupKey_insertKey_ne hne]

/-! ## Claim theorems: capability registry -/

/-- Claim C2: the spec says `register` terminates for every registry state,
retrying with a *new* candidate key on a collision.  The code's collision loop
is `while contains_key(rand) { rand = rand; }`: the candidate never changes,
so as soon as the (fixed, seeded) candidate is already registered — which is
the case after the very first successful registration — `register` never
returns, for any iteration bound.  The first conjunct shows the colliding
state is reachable; the second evaluates the code there. -/
theorem register_diverges_on_key_collision :
    register 1 demoCap [] = some (regAfterFirst, registerCandidate) ∧
    ∀ (fuel : Nat) (c : Capability), register fuel c regAfterFirst = none := by
  refine ⟨rfl, ?_⟩
  intro fuel c
  unfold register
  rw [@registerLoop_none_of_contains regAfterFirst registerCandidate (by decide) fuel]

/-- Claim C5: key uniqueness is an invariant — every `register` call that
returns does so with a key that was absent from the registry at the moment of
insertion, and consequently any later successful `register` call (after any
further sequence of registrations) returns a different key. -/
theorem register_returns_fresh_key
    (fu1 : Nat) (c1 : Capability) (r0 r1 : Registry) (k1 : Key)
    (h1 : register fu1 c1 r0 = some (r1, k1)) :
    containsKey r0 k1 = false ∧
    ∀ (fu2 fu3 : Nat) (caps : List Capability) (c2 : Capability)
      (r2 : Registry) (k2 : Key),
      register fu3 c2 (registerMany fu2 caps r1) = some (r2, k2) → k2 ≠ k1 := by
  obtain ⟨_, hfresh, hr1⟩ := register_eq_some h1
  refine ⟨hfresh, ?_⟩
  intro fu2 fu3 caps c2 r2 k2 h2 heq
  obtain ⟨_, hfresh2, _⟩ := register_eq_some h2
  have hk1r1 : containsKey r1 k1 = true := by
    rw [hr1]; exact containsKey_insertKey_self r0 k1 c1
  have hkm : containsKey (registerMany fu2 caps r1) k1 = true :=
    registerMany_contains caps r1 hk1r1
  rw [heq] at hfresh2
  rw [hfresh2] at hkm
  cases hkm

/-- Witness for C5: the first registration of a boot succeeds and its key was
absent from the empty registry. -/
theorem register_returns_fresh_key_witness :
    register 1 demoCap [] = some (regAfterFirst, registerCandidate) ∧
    containsKey ([] : Registry) registerCandidate = false :=
  ⟨rfl, (register_returns_fresh_key 1 demoCap [] regAfterFirst registerCandidate rfl).1⟩

/-- Claim C6: a key returned by `register` looks up, via `with`, exactly the
registered capability object — immediately, and after any further sequence of
registrations (no registration can ever replace an existing key); `with`
applies its function once to that object and returns the result. -/
theorem withCap_returns_registered_object {α : Type}
    (fu : Nat) (c : Capability) (r0 r1 : Registry) (k : Key)
    (h : register fu c r0 = some (r1, k)) (f : Capability → α) :
    withCap r1 k f = some (f c) ∧
    ∀ (fu2 : Nat) (caps : List Capability),
      withCap (registerMany fu2 caps r1) k f = some (f c) := by
  obtain ⟨_, _, hr1⟩ := register_eq_some h
  have hlook : lookupKey r1 k = some c := by
    rw [hr1]; exact lookupKey_insertKey_self r0 k c
  have hcont : containsKey r1 k = true := by
    rw [hr1]; exact containsKey_insertKey_self r0 k c
  refine ⟨by simp [withCap, hlook], ?_⟩
  intro fu2 caps
  rw [withCap, registerMany_lookup caps r1 hcont, hlook]
  rfl

/-- Witness for C6: the key of the first registration gives back the
registered object through `with`. -/
theorem withCap_returns_registered_object_witness :
    register 1 demoCap [] = some (regAfterFirst, registerCandidate) ∧
    withCap regAfterFirst registerCandidate (fun c => c) = some demoCap :=
  ⟨rfl,
    (withCap_returns_registered_object 1 demoCap [] regAfterFirst registerCandidate
      rfl (fun c => c)).1⟩

/-- Claim C10: key generation is deterministic and state-independent — every
`register` call that returns a key returns the *same* fixed 128-bit value,
namely the first output of the RNG seeded with the all-zero 32-byte constant,
in every execution and from every registry state. -/
theorem register_key_state_independent
    (fu fu' : Nat) (c c' : Capability) (r0 r0' s s' : Registry) (k k' : Key)
    (h : register fu c r0 = some (s, k))
    (h' : register fu' c' r0' = some (s', k')) :
    k = k' ∧ k = stdRngFromSeedGen (List.replicate 32 0) := by
  obtain ⟨hk, _, _⟩ := register_eq_some h
  obtain ⟨hk', _, _⟩ := register_eq_some h'
  exact ⟨hk.trans hk'.symm, hk⟩

/-- Witness for C10: two registrations from different registry states both
succeed and both return the identical, predictable key. -/
theorem register_key_state_independent_witness :
    register 1 demoCap [] = some (regAfterFirst, registerCandidate) ∧
    register 2 (Capability.CapabilityGroup []) [(5, demoCap)] =
      some ((registerCandidate, Capability.CapabilityGroup []) :: [(5, demoCap)],
        registerCandidate) ∧
    (registerCandidate = registerCandidate ∧
      registerCandidate = stdRngFromSeedGen (List.replicate 32 0)) :=
  ⟨rfl, rfl,
    register_key_state_independent 1 2 demoCap (Capability.CapabilityGroup [])
      [] [(5, demoCap)] regAfterFirst
      ((registerCandidate, Capability.CapabilityGroup []) :: [(5, demoCap)])
      registerCandidate registerCandidate rfl rfl⟩

/-! ## Claim theorems: virtual memory and demand paging -/

/-- Claim C1 (code bug): the spec says a fault inside an allowed range maps
the page *containing the faulting address*, and that faulting two different
pages of one range consumes two frames and installs two distinct mappings.
The handler instead builds the page from the range's *start* address: a fault
at `0x2000`, the second page of the allowed range `[0x1000, 0x3000)`, and a
fault at `0x1000` both install a mapping for page `0x1000` — and once that
page is mapped, the fault at the other page panics inside `map_to` instead of
installing a second mapping. -/
theorem handle_page_fault_maps_range_start_not_faulting_page :
    (4096 ≤ 8192 ∧ 8192 < 4096 + 8192) ∧
    handle_page_fault stTwoPage 8192 =
      FaultResult.mapped stTwoPageFaulted 4096 7 demoFlags ∧
    pageContaining 8192 = 8192 ∧ (4096 : Nat) ≠ 8192 ∧
    handle_page_fault stTwoPage 4096 =
      FaultResult.mapped stTwoPageFaulted 4096 7 demoFlags ∧
    handle_page_fault stTwoPageFaulted 8192 = FaultResult.kernelPanic := by
  decide

/-- Claim C3 (code bug): the spec says a fault address covered by *no*
allowed entry is fatal and commits no frame.  The handler only checks that
some entry's start is `≤` the address and never compares against
`start + len`: with the single allowed range `[0x1000, 0x2000)`, a fault at
`0x5000` — past the end of every range — does not panic; it consumes a frame
and installs a mapping. -/
theorem handle_page_fault_past_range_end_not_fatal :
    stOnePage.allowed = [(4096, (4096, demoFlags))] ∧
    4096 + 4096 ≤ 20480 ∧
    handle_page_fault stOnePage 20480 =
      FaultResult.mapped stOnePageFaulted 4096 9 demoFlags ∧
    handle_page_fault stOnePage 20480 ≠ FaultResult.segfault ∧
    stOnePageFaulted.physFree.length + 1 = stOnePage.physFree.length := by
  decide

/-- Claim C4: `alloc_with_guard(n)` allocates `n + 2` pages and then calls
`guard`; the returned region's length is `n` pages, its start is one page
above the allocated base, and the byte immediately before `start` and the
byte at `start + len` both lie in the two allocated guard pages, outside the
region's reported span.  (`base` is the page number handed out by the
virtual-address allocator on success.) -/
theorem alloc_with_guard_len_and_guard_pages (base n : Nat) :
    VirtualMemoryRegion.alloc_with_guard base n =
      VirtualMemoryRegion.guard (VirtualMemoryRegion.alloc base (n + 2)) ∧
    (VirtualMemoryRegion.alloc base (n + 2)).len = (n + 2) * pageSize ∧
    (VirtualMemoryRegion.alloc_with_guard base n).len = n * pageSize ∧
    (VirtualMemoryRegion.alloc_with_guard base n).addr = base * pageSize + pageSize ∧
    pageContaining ((VirtualMemoryRegion.alloc_with_guard base n).addr - 1) =
      (VirtualMemoryRegion.alloc base (n + 2)).addr ∧
    pageContaining ((VirtualMemoryRegion.alloc_with_guard base n).addr +
        (VirtualMemoryRegion.alloc_with_guard base n).len) =
      (VirtualMemoryRegion.alloc base (n + 2)).addr + (n + 1) * pageSize ∧
    ¬ ((VirtualMemoryRegion.alloc_with_guard base n).addr ≤
        (VirtualMemoryRegion.alloc_with_guard base n).addr - 1) ∧
    (VirtualMemoryRegion.alloc base (n + 2)).addr ≤
      (VirtualMemoryRegion.alloc_with_guard base n).addr - 1 ∧
    (VirtualMemoryRegion.alloc_with_guard base n).addr +
        (VirtualMemoryRegion.alloc_with_guard base n).len <
      (VirtualMemoryRegion.alloc base (n + 2)).addr + (n + 2) * pageSize := by
  refine ⟨rfl, ?_⟩
  simp only [VirtualMemoryRegion.alloc_with_guard, VirtualMemoryRegion.guard,
    VirtualMemoryRegion.alloc, pageContaining, pageSize]
  exact ⟨trivial, by omega, trivial, by omega, by omega, by omega, by omega, by omega⟩

/-- Claim C7: `map_region(handle, flags)` only inserts
`(region.start, (region.len, flags))` into the `ALLOWED` map — the physical
allocator and the page tables are untouched (nothing is allocated, nothing is
mapped) and every other `ALLOWED` entry keeps its value. -/
theorem map_region_only_records_allowed_entry
    (st : PagingState) (reg : Registry) (hdl : Key) (flags : PageTableFlags)
    (r : VirtualMemoryRegion)
    (hl : lookupKey reg hdl = some (Capability.VirtualMemoryRegion r)) :
    map_region st reg hdl flags =
      some { physFree := st.physFree, pageTables := st.pageTables,
             allowed := insertKey st.allowed r.addr (r.len, flags) } ∧
    ∀ k : Nat, k ≠ r.addr →
      lookupKey (insertKey st.allowed r.addr (r.len, flags)) k =
        lookupKey st.allowed k := by
  refine ⟨by simp [map_region, hl], ?_⟩
  intro k hk
  exact lookupKey_insertKey_ne (fun he => hk he.symm)

/-- Witness for C7: a concrete `map_region` call records the entry and leaves
the allocator and the page tables exactly as they were. -/
theorem map_region_only_records_allowed_entry_witness :
    lookupKey demoRegMap 3 = some (Capability.VirtualMemoryRegion ⟨4096, 8192⟩) ∧
    map_region stMapRegion demoRegMap 3 7 =
      some { physFree := [5], pageTables := [(0, (1, 3))],
             allowed := insertKey [(0, (4096, 3))] 4096 (8192, 7) } :=
  ⟨rfl,
    (map_region_only_records_allowed_entry stMapRegion demoRegMap 3 7
      ⟨4096, 8192⟩ rfl).1⟩

/-! ## Claim theorems: time source -/

/-- Claim C9: relative deadlines are `now + N × tick_frequency`: `after(N)`
adds `N * PIT_HZ` ticks (whenever the `usize` addition does not wrap), and the
configured frequency is 1000 Hz, so `after(4)` at tick 0 is timestamp 4000. -/
theorem sysTime_after_adds_ticks (s : SysTime) (secs : Nat)
    (h : s.ticks + secs * PIT_HZ < usizeMod) :
    (s.after secs).ticks = s.ticks + secs * PIT_HZ ∧ PIT_HZ = 1000 :=
  ⟨by simp [SysTime.after, Nat.mod_eq_of_lt h], rfl⟩

/-- Witness for C9: at tick 0 with the 1000 Hz frequency, `after(4)` is
timestamp 4000. -/
theorem sysTime_after_adds_ticks_witness :
    (0 : Nat) + 4 * PIT_HZ < usizeMod ∧
    ((SysTime.mk 0).after 4).ticks = 0 + 4 * PIT_HZ ∧ PIT_HZ = 1000 ∧
    ((SysTime.mk 0).after 4).ticks = 4000 :=
  ⟨by decide,
    (sysTime_after_adds_ticks ⟨0⟩ 4 (by decide)).1,
    (sysTime_after_adds_ticks ⟨0⟩ 4 (by decide)).2,
    by decide⟩

/-! ## Claim theorems: scheduler -/

/-- Requeuing the scanned front entry at the back preserves membership. -/
theorem mem_rotate {x y : EventKind × Cont} {rest : List (EventKind × Cont)}
    (h : y ∈ x :: rest) : y ∈ rest ++ [x] := by
  rcases List.mem_cons.mp h with h | h
  · subst h; exact List.mem_append_right _ (List.mem_singleton_self _)
  · exact List.mem_append_left _ h

/-- Requeuing the scanned front entry at the back preserves distinctness of
the queued continuations. -/
theorem nodup_rotate {x : EventKind × Cont} {rest : List (EventKind × Cont)}
    (h : ((x :: rest).map Prod.snd).Nodup) :
    ((rest ++ [x]).map Prod.snd).Nodup := by
  simp only [List.map_cons, List.nodup_cons] at h
  simp only [List.map_append, List.map_cons, List.map_nil]
  refine List.Nodup.append h.2 (List.nodup_singleton _) ?_
  intro a ha hb
  rw [List.mem_singleton] at hb
  subst hb
  exact h.1 ha

/-- Core of claim C8, over the scan loop with an arbitrary iteration bound: a
continuation queued under `Until t` with `now < t` is never the one returned
(the queued continuations being pairwise distinct). -/
theorem schedNextAux_no_early_timer (now t : Nat) (c : Cont) :
    ∀ (fuel : Nat) (q : List (EventKind × Cont)) (kbd : List Nat),
      (EventKind.Until t, c) ∈ q → (q.map Prod.snd).Nodup → now < t →
      returnedCont (schedNextAux now fuel q kbd) ≠ some c := by
  intro fuel
  induction fuel with
  | zero =>
    intro q kbd hmem hnd hlt
    cases q with
    | nil => simp at hmem
    | cons a rest => simp [schedNextAux, returnedCont]
  | succ fuel ih =>
    intro q kbd hmem hnd hlt
    cases q with
    | nil => simp at hmem
    | cons a rest =>
      obtain ⟨ek, c'⟩ := a
      have hnd' : ¬ c' ∈ rest.map Prod.snd ∧ (rest.map Prod.snd).Nodup := by
        simpa using hnd
      cases ek with
      | Now =>
        have hr : (EventKind.Until t, c) ∈ rest := by
          rcases List.mem_cons.mp hmem with h | h
          · exact absurd h (by simp)
          · exact h
        have hcc : c ∈ rest.map Prod.snd := List.mem_map_of_mem Prod.snd hr
        have hcne : c' ≠ c := by
          intro he
          exact hnd'.1 (by rw [he]; exact hcc)
        simp [schedNextAux, returnedCont]
        exact hcne
      | Until t' =>
        by_cases hle : t' ≤ now
        · have hcne : c' ≠ c := by
            intro he
            rcases List.mem_cons.mp hmem with h | h
            · have : t = t' ∧ c = c' := by simpa using h
              omega
            · exact hnd'.1 (by rw [he]; exact List.mem_map_of_mem Prod.snd h)
          simp [schedNextAux, hle, returnedCont]
          exact hcne
        · simp only [schedNextAux, if_neg hle]
          exact ih (rest ++ [(EventKind.Until t', c')]) kbd (mem_rotate hmem)
            (nodup_rotate hnd) hlt
      | Keyboard =>
        cases kbd with
        | cons b kbd' =>
          have hcne : c' ≠ c := by
            intro he
            rcases List.mem_cons.mp hmem with h | h
            · exact absurd h (by simp)
            · exact hnd'.1 (by rw [he]; exact List.mem_map_of_mem Prod.snd h)
          simp [schedNextAux, returnedCont]
          exact hcne
        | nil =>
          simp only [schedNextAux]
          exact ih (rest ++ [(EventKind.Keyboard, c')]) [] (mem_rotate hmem)
            (nodup_rotate hnd) hlt

/-- Claim C8: `Scheduler::next` never returns a continuation queued under
`Until(t)` while the current time is strictly less than `t`; such an entry is
pushed back onto the pending queue instead.  (The queued continuations are
pairwise distinct — they are one-shot and never cloned.) -/
theorem scheduler_next_no_early_timer_dispatch
    (now t : Nat) (c : Cont) (q : List (EventKind × Cont)) (kbd : List Nat)
    (hmem : (EventKind.Until t, c) ∈ q) (hnd : (q.map Prod.snd).Nodup)
    (hlt : now < t) :
    returnedCont (Scheduler.next now q kbd) ≠ some c :=
  schedNextAux_no_early_timer now t c q.length q kbd hmem hnd hlt

/-- Witness for C8: at time 3, a continuation waiting until time 5 is not
dispatched. -/
theorem scheduler_next_no_early_timer_dispatch_witness :
    (EventKind.Until 5, (0 : Cont)) ∈ [(EventKind.Until 5, (0 : Cont))] ∧
    (([(EventKind.Until 5, (0 : Cont))].map Prod.snd).Nodup) ∧ 3 < 5 ∧
    returnedCont (Scheduler.next 3 [(EventKind.Until 5, 0)] []) ≠ some 0 :=
  ⟨by decide, by decide, by decide,
    scheduler_next_no_early_timer_dispatch 3 5 0 [(EventKind.Until 5, 0)] []
      (by decide) (by decide) (by decide)⟩

end OS2
